import Mathlib

/-!
Verification of vulkano's memory pool (`src/memory/pool/`).

The development shallowly embeds:

* the block sub-allocators `StandardHostVisibleMemoryTypePool` and
  `StandardNonHostVisibleMemoryTypePool` (`host_visible.rs`, `non_host_visible.rs`),
  whose `alloc` / `Drop` logic on the `occupied` table is line-for-line identical
  between the two variants (the host-visible one merely wraps each block in a
  `MappedDeviceMemory` and additionally maps new blocks, an external driver step);
* the memory-type selection function `choose_allocation_memory_type` (`mod.rs`);
* the pooled-versus-dedicated decision of `MemoryPool::alloc_from_requirements`
  (`mod.rs`), and the capability assertions of `alloc_dedicated_with_exportable_fd`
  and `alloc_import_from_fd` (`mod.rs`);
* the `MemoryPoolAlloc` implementation for `PotentialDedicatedAllocation` (`mod.rs`).

Machine integers (`u64` `DeviceSize`, `u32` masks) are modelled as `Nat`;
arithmetic overflow (a debug-mode panic in Rust) is outside the scope of the
claims and is not modelled.  Driver calls (`DeviceMemory::allocate`,
`MappedDeviceMemory::new`, `DeviceMemory::import`) are external to the core and
are modelled by boolean success inputs.
-/

namespace Vulkano

/-- Half-open byte range `[start, stop)` inside one memory block.  Embeds the Rust
`Range<DeviceSize>` values stored in the `occupied` table; the Rust field `end` is
a Lean keyword and is named `stop` here. -/
structure MemRange where
  start : Nat
  stop : Nat
deriving DecidableEq

/-- The rounding helper `align` defined inside both `alloc` functions
(`host_visible.rs` line 69, `non_host_visible.rs` line 64):
`fn align(val, al) = al * (1 + (val - 1) / al)`.  Every call site passes
`val = range.end > 0`, so the `u64` subtraction never underflows. -/
def align (val al : Nat) : Nat :=
  al * (1 + (val - 1) / al)

/-- `MIN_BLOCK_SIZE` constant from both pool variants: 8 MiB. -/
def MIN_BLOCK_SIZE : Nat := 8 * 1024 * 1024

/-- Fuel-driven ceiling of the base-2 logarithm; `fuel = n` is always enough
(see `le_nextPowerOfTwo`).  Structural recursion keeps it kernel-computable. -/
def log2ceil : Nat → Nat → Nat
  | 0, _ => 0
  | fuel + 1, n => if n ≤ 1 then 0 else log2ceil fuel ((n + 1) / 2) + 1

/-- Models `u64::next_power_of_two` as used by both `alloc` functions: the least
power of two that is `≥ n` (with `0` and `1` both mapped to `1`). -/
def nextPowerOfTwo (n : Nat) : Nat := 2 ^ log2ceil n n

example : nextPowerOfTwo 0 = 1 := by decide
example : nextPowerOfTwo 1 = 1 := by decide
example : nextPowerOfTwo 5 = 8 := by decide
example : nextPowerOfTwo 8 = 8 := by decide
example : nextPowerOfTwo 9 = 16 := by decide
example : nextPowerOfTwo 4096 = 4096 := by decide

/-- One block of the pool: the block's `allocation_size` (its capacity) paired with
its occupied ranges in list order.  Embeds one element of the `occupied` vector
`(Arc<…DeviceMemory>, Vec<Range<DeviceSize>>)`.  The `Arc` pointer identity of the
block is represented by the block's index in the pool list: blocks are only ever
pushed at the end and mutated in place, never removed or reordered. -/
abbrev Block := Nat × List MemRange

/-- The `occupied` table of one `Standard*MemoryTypePool`. -/
abbrev PoolState := List Block

/-- The data of a `Standard*MemoryTypePoolAlloc` tracked by the embedding: the
block it references (an `Arc` in Rust, an index here), its offset and its size. -/
structure PoolAlloc where
  blockIdx : Nat
  offset : Nat
  size : Nat
deriving DecidableEq

/-- The per-block search inside `alloc`: first scan adjacent pairs of occupied
ranges in order, inserting between a pair when the aligned candidate fits before
the second range; otherwise try appending after the last range (offset `0` when
the block is empty).  Returns the chosen offset together with the updated range
list, or `none` when the block cannot hold the request. -/
def allocInBlock (cap size al : Nat) : List MemRange → Option (Nat × List MemRange)
  | [] =>
      if size ≤ cap then some (0, [⟨0, size⟩]) else none
  | [r] =>
      let c := align r.stop al
      if c + size ≤ cap then some (c, [r, ⟨c, c + size⟩]) else none
  | r1 :: r2 :: rest =>
      let c := align r1.stop al
      if c + size ≤ r2.start then
        some (c, r1 :: ⟨c, c + size⟩ :: r2 :: rest)
      else
        (allocInBlock cap size al (r2 :: rest)).map (fun p => (p.1, r1 :: p.2))

/-- The loop of `alloc` over the already-allocated chunks: the first block able to
hold the request wins. -/
def allocBlocks (size al : Nat) : PoolState → Option (PoolAlloc × PoolState)
  | [] => none
  | b :: rest =>
    match allocInBlock b.1 size al b.2 with
    | some (off, entries) => some (⟨0, off, size⟩, (b.1, entries) :: rest)
    | none =>
      match allocBlocks size al rest with
      | some (a, rest') => some (⟨a.blockIdx + 1, a.offset, a.size⟩, b :: rest')
      | none => none

/-- Outcome of one `alloc` call: `panicked` models an `assert!` failure, `err` the
`DeviceMemoryError` propagated by `?` from the driver, `ok` a successful
allocation. -/
inductive AllocResult where
  | panicked
  | err
  | ok (a : PoolAlloc)
deriving DecidableEq

/-- `StandardHostVisibleMemoryTypePool::alloc` / `StandardNonHostVisibleMemoryTypePool::alloc`
(their logic on the `occupied` table is identical).  `driverOk` models the external
driver succeeding on the new-block path (`DeviceMemory::allocate`, and for the
host-visible pool also `MappedDeviceMemory::new`; both happen before the new block
is pushed into `occupied`).  The second component is the pool's `occupied` table
after the call. -/
def alloc (st : PoolState) (size al : Nat) (driverOk : Bool) : AllocResult × PoolState :=
  if size = 0 ∨ al = 0 then (.panicked, st)
  else
    match allocBlocks size al st with
    | some (a, st') => (.ok a, st')
    | none =>
      if driverOk then
        let cap := max MIN_BLOCK_SIZE (nextPowerOfTwo size)
        (.ok ⟨st.length, 0, size⟩, st ++ [(cap, [⟨0, size⟩])])
      else (.err, st)

/-- `Drop for Standard*MemoryTypePoolAlloc`: locate the allocation's block (pointer
identity in Rust, index here) and `retain` only the ranges whose start offset
differs from the allocation's offset. -/
def free : PoolState → Nat → Nat → PoolState
  | [], _, _ => []
  | b :: rest, 0, off => (b.1, b.2.filter fun r => decide (r.start ≠ off)) :: rest
  | b :: rest, i + 1, off => b :: free rest i off

/-- One observable operation on a pool: an `alloc` call or the drop of a
previously returned allocation. -/
inductive Op where
  | alloc (size alignment : Nat) (driverOk : Bool)
  | free (blockIdx offset : Nat)

/-- Effect of one operation on the `occupied` table. -/
def step (st : PoolState) : Op → PoolState
  | .alloc s a ok => (alloc st s a ok).2
  | .free i off => free st i off

/-- State of the `occupied` table after a sequence of operations on a pool created
by `Standard*MemoryTypePool::new` (which starts with an empty table). -/
def run (ops : List Op) : PoolState := ops.foldl step []

/-- An operation whose arguments satisfy the documented preconditions of the pool
(`size > 0`, `alignment > 0`; drops carry no precondition). -/
def validOp : Op → Prop
  | .alloc s a _ => 0 < s ∧ 0 < a
  | .free _ _ => True

instance decidableValidOp : ∀ op : Op, Decidable (validOp op)
  | .alloc s a _ => inferInstanceAs (Decidable (0 < s ∧ 0 < a))
  | .free _ _ => inferInstanceAs (Decidable True)

/-- Well-formedness of one block: every occupied range is nonempty, earlier ranges
end before later ranges start, and every range lies within the capacity. -/
def blockWF (b : Block) : Prop :=
  (∀ r ∈ b.2, r.start < r.stop) ∧
  List.Pairwise (fun r s => r.stop ≤ s.start) b.2 ∧
  (∀ r ∈ b.2, r.stop ≤ b.1)

/-- Well-formedness of the whole `occupied` table. -/
def poolWF (st : PoolState) : Prop := ∀ b ∈ st, blockWF b

/-- Occupied ranges listed in ascending order of start offset. -/
def sortedByStart (l : List MemRange) : Prop :=
  List.Pairwise (fun r s => r.start < s.start) l

/-- Half-open occupied ranges pairwise non-overlapping. -/
def disjointRanges (l : List MemRange) : Prop :=
  List.Pairwise (fun r s => r.stop ≤ s.start ∨ s.stop ≤ r.start) l

/-! ### Arithmetic facts about `align` and `nextPowerOfTwo` -/

theorem le_align (v al : Nat) (hal : 0 < al) : v ≤ align v al := by
  unfold align
  rcases v with _ | w
  · exact Nat.zero_le _
  · have h1 := Nat.div_add_mod w al
    have h2 : w % al < al := Nat.mod_lt _ hal
    have h3 : (w + 1 : Nat) - 1 = w := rfl
    rw [h3]
    have h4 : al * (1 + w / al) = al * (w / al) + al := by ring
    rw [h4]
    set t := al * (w / al) with ht
    set r := w % al with hr
    omega

theorem align_le (v al : Nat) (hv : 0 < v) (hal : 0 < al) : align v al ≤ v + al - 1 := by
  unfold align
  rcases v with _ | w
  · omega
  · have h1 := Nat.div_add_mod w al
    have h2 : w % al < al := Nat.mod_lt _ hal
    have h3 : (w + 1 : Nat) - 1 = w := rfl
    rw [h3]
    have h4 : al * (1 + w / al) = al * (w / al) + al := by ring
    rw [h4]
    have h5 : al * (w / al) ≤ w := by
      calc al * (w / al) ≤ al * (w / al) + w % al := Nat.le_add_right _ _
        _ = w := h1
    omega

theorem align_dvd (v al : Nat) : al ∣ align v al := ⟨1 + (v - 1) / al, rfl⟩

theorem align_eq_of_dvd (v al : Nat) (hv : 0 < v) (hal : 0 < al) (h : al ∣ v) :
    align v al = v := by
  obtain ⟨k, hk⟩ := h
  obtain ⟨m, hm⟩ := align_dvd v al
  have h1 : v ≤ align v al := le_align v al hal
  have h2 : align v al ≤ v + al - 1 := align_le v al hv hal
  have hkm : k ≤ m := by
    have : al * k ≤ al * m := by rw [← hk, ← hm]; exact h1
    exact Nat.le_of_mul_le_mul_left this hal
  have hmk : m < k + 1 := by
    have hlt : al * m < al * (k + 1) := by
      have : al * (k + 1) = al * k + al := by ring
      rw [this, ← hk, ← hm]
      omega
    exact Nat.lt_of_mul_lt_mul_left hlt
  have : m = k := by omega
  rw [hm, this, hk]

theorem le_log2ceil_pow (fuel n : Nat) (h : n ≤ fuel) : n ≤ 2 ^ log2ceil fuel n := by
  induction fuel generalizing n with
  | zero =>
    simp only [log2ceil, Nat.pow_zero]
    omega
  | succ fuel ih =>
    unfold log2ceil
    by_cases h1 : n ≤ 1
    · simp [h1]
    · simp only [h1, if_false]
      have hrec : (n + 1) / 2 ≤ fuel := by omega
      have := ih ((n + 1) / 2) hrec
      have h2 : n ≤ 2 * ((n + 1) / 2) := by omega
      calc n ≤ 2 * ((n + 1) / 2) := h2
        _ ≤ 2 * 2 ^ log2ceil fuel ((n + 1) / 2) := by omega
        _ = 2 ^ (log2ceil fuel ((n + 1) / 2) + 1) := by rw [Nat.pow_succ]; ring

theorem le_nextPowerOfTwo (n : Nat) : n ≤ nextPowerOfTwo n :=
  le_log2ceil_pow n n (Nat.le_refl n)

/-! ### Soundness of the per-block search -/


theorem allocInBlock_sound (cap size al : Nat) (hs : 0 < size) (hal : 0 < al) :
    ∀ (entries : List MemRange) (off : Nat) (entries' : List MemRange),
      blockWF (cap, entries) →
      allocInBlock cap size al entries = some (off, entries') →
      blockWF (cap, entries') ∧ al ∣ off ∧ off + size ≤ cap ∧
      entries'.filter (fun r => decide (r.start ≠ off)) = entries ∧
      (∀ y ∈ entries', y = ⟨off, off + size⟩ ∨ y ∈ entries) ∧
      (∀ h, entries.head? = some h → h.stop ≤ off) := by
  intro entries
  induction entries with
  | nil =>
    intro off entries' hWF h
    by_cases hc : size ≤ cap
    · simp only [allocInBlock, hc, if_true, Option.some.injEq, Prod.mk.injEq] at h
      obtain ⟨h1, h2⟩ := h
      subst off; subst entries'
      refine ⟨⟨?_, ?_, ?_⟩, dvd_zero al, by omega, ?_, ?_, ?_⟩
      · intro r hr; simp only [List.mem_singleton] at hr; rw [hr]; exact hs
      · simp
      · intro r hr; simp only [List.mem_singleton] at hr; rw [hr]; exact hc
      · simp
      · intro y hy; simp only [List.mem_singleton] at hy; rw [hy]; left; simp
      · intro h hh; simp at hh
    · simp [allocInBlock, hc] at h
  | cons r1 tail ih =>
    intro off entries' hWF h
    obtain ⟨hne, hpw, hcap⟩ := hWF
    have hr1 : r1.start < r1.stop := hne r1 (by simp)
    have hr1c : r1.stop ≤ align r1.stop al := le_align _ _ hal
    cases tail with
    | nil =>
      by_cases hc : align r1.stop al + size ≤ cap
      · simp only [allocInBlock, hc, if_true, Option.some.injEq, Prod.mk.injEq] at h
        obtain ⟨h1, h2⟩ := h
        subst off; subst entries'
        refine ⟨⟨?_, ?_, ?_⟩, align_dvd _ _, hc, ?_, ?_, ?_⟩
        · intro r hr
          rcases List.mem_cons.mp hr with h' | h'
          · rw [h']; exact hr1
          · simp only [List.mem_singleton] at h'; rw [h']
            show align r1.stop al < align r1.stop al + size
            omega
        · refine List.pairwise_cons.mpr ⟨?_, by simp⟩
          intro y hy; simp only [List.mem_singleton] at hy; rw [hy]
          exact hr1c
        · intro r hr
          rcases List.mem_cons.mp hr with h' | h'
          · rw [h']; exact hcap r1 (by simp)
          · simp only [List.mem_singleton] at h'; rw [h']
            show align r1.stop al + size ≤ cap
            exact hc
        · rw [List.filter_cons_of_pos (by simp only [decide_eq_true_eq]; omega)]
          rw [List.filter_cons_of_neg (by simp)]
          rfl
        · intro y hy
          rcases List.mem_cons.mp hy with h' | h'
          · rw [h']; right; simp
          · simp only [List.mem_singleton] at h'; rw [h']; left; rfl
        · intro h hh
          simp only [List.head?_cons, Option.some.injEq] at hh
          rw [← hh]; exact hr1c
      · simp [allocInBlock, hc] at h
    | cons r2 rest =>
      have hr1all : ∀ y ∈ r2 :: rest, r1.stop ≤ y.start := (List.pairwise_cons.mp hpw).1
      have hr1r2 : r1.stop ≤ r2.start := hr1all r2 (by simp)
      have hpwT : List.Pairwise (fun r s => r.stop ≤ s.start) (r2 :: rest) :=
        (List.pairwise_cons.mp hpw).2
      have hr2 : r2.start < r2.stop := hne r2 (by simp)
      have hr2all : ∀ y ∈ rest, r2.stop ≤ y.start := (List.pairwise_cons.mp hpwT).1
      have hr2cap : r2.stop ≤ cap := hcap r2 (by simp)
      by_cases hc : align r1.stop al + size ≤ r2.start
      · simp only [allocInBlock, hc, if_true, Option.some.injEq, Prod.mk.injEq] at h
        obtain ⟨h1, h2⟩ := h
        subst off; subst entries'
        refine ⟨⟨?_, ?_, ?_⟩, align_dvd _ _, by omega, ?_, ?_, ?_⟩
        · intro r hr
          rcases List.mem_cons.mp hr with h' | h'
          · rw [h']; exact hr1
          rcases List.mem_cons.mp h' with h'' | h''
          · rw [h'']
            show align r1.stop al < align r1.stop al + size
            omega
          · exact hne r (List.mem_cons_of_mem r1 h'')
        · refine List.pairwise_cons.mpr ⟨?_, List.pairwise_cons.mpr ⟨?_, hpwT⟩⟩
          · intro y hy
            rcases List.mem_cons.mp hy with h' | h'
            · rw [h']; exact hr1c
            · exact hr1all y h'
          · intro y hy
            rcases List.mem_cons.mp hy with h' | h'
            · rw [h']
              show align r1.stop al + size ≤ r2.start
              exact hc
            · have := hr2all y h'
              show align r1.stop al + size ≤ y.start
              omega
        · intro r hr
          rcases List.mem_cons.mp hr with h' | h'
          · rw [h']; exact hcap r1 (by simp)
          rcases List.mem_cons.mp h' with h'' | h''
          · rw [h'']
            show align r1.stop al + size ≤ cap
            omega
          · exact hcap r (List.mem_cons_of_mem r1 h'')
        · rw [List.filter_cons_of_pos (by simp only [decide_eq_true_eq]; omega)]
          rw [List.filter_cons_of_neg (by simp)]
          rw [List.filter_eq_self.mpr ?_]
          intro y hy
          rcases List.mem_cons.mp hy with h' | h'
          · rw [h']; simp only [decide_eq_true_eq]; omega
          · have := hr2all y h'
            simp only [decide_eq_true_eq]; omega
        · intro y hy
          rcases List.mem_cons.mp hy with h' | h'
          · rw [h']; right; simp
          rcases List.mem_cons.mp h' with h'' | h''
          · rw [h'']; left; rfl
          · right; exact List.mem_cons_of_mem r1 h''
        · intro h hh
          simp only [List.head?_cons, Option.some.injEq] at hh
          rw [← hh]; exact hr1c
      · simp only [allocInBlock, hc, if_false, Option.map_eq_some'] at h
        obtain ⟨⟨off0, l'⟩, hrec, heq⟩ := h
        simp only [Prod.mk.injEq] at heq
        obtain ⟨h1, h2⟩ := heq
        subst off; subst entries'
        have hWFT : blockWF (cap, r2 :: rest) := by
          refine ⟨?_, hpwT, ?_⟩
          · intro r hr; exact hne r (List.mem_cons_of_mem r1 hr)
          · intro r hr; exact hcap r (List.mem_cons_of_mem r1 hr)
        obtain ⟨hWF', hdvd, hle, hfilter, hmem, hhead⟩ := ih off0 l' hWFT hrec
        have hr2off : r2.stop ≤ off0 := hhead r2 rfl
        obtain ⟨hne', hpw', hcap'⟩ := hWF'
        refine ⟨⟨?_, ?_, ?_⟩, hdvd, hle, ?_, ?_, ?_⟩
        · intro r hr
          rcases List.mem_cons.mp hr with h' | h'
          · rw [h']; exact hr1
          · exact hne' r h'
        · refine List.pairwise_cons.mpr ⟨?_, hpw'⟩
          intro y hy
          rcases hmem y hy with h' | h'
          · rw [h']
            show r1.stop ≤ off0
            omega
          · exact hr1all y h'
        · intro r hr
          rcases List.mem_cons.mp hr with h' | h'
          · rw [h']; exact hcap r1 (by simp)
          · exact hcap' r h'
        · rw [List.filter_cons_of_pos (by simp only [decide_eq_true_eq]; omega)]
          rw [hfilter]
        · intro y hy
          rcases List.mem_cons.mp hy with h' | h'
          · rw [h']; right; simp
          rcases hmem y h' with h'' | h''
          · left; exact h''
          · right; exact List.mem_cons_of_mem r1 h''
        · intro h hh
          simp only [List.head?_cons, Option.some.injEq] at hh
          rw [← hh]; omega


/-! ### Soundness of the whole-pool search -/

theorem allocBlocks_sound (size al : Nat) (hs : 0 < size) (hal : 0 < al) :
    ∀ (st : PoolState) (a : PoolAlloc) (st' : PoolState),
      poolWF st →
      allocBlocks size al st = some (a, st') →
      poolWF st' ∧ al ∣ a.offset ∧ a.size = size ∧ st'.length = st.length ∧
      (∃ hb : a.blockIdx < st'.length, a.offset + size ≤ (st'.get ⟨a.blockIdx, hb⟩).1) ∧
      free st' a.blockIdx a.offset = st := by
  intro st
  induction st with
  | nil => intro a st' _ h; simp [allocBlocks] at h
  | cons b rest ih =>
    intro a st' hWF h
    have hbWF : blockWF b := hWF b (by simp)
    cases hblk : allocInBlock b.1 size al b.2 with
    | some p =>
      obtain ⟨off, entries⟩ := p
      simp only [allocBlocks, hblk, Option.some.injEq, Prod.mk.injEq] at h
      obtain ⟨h1, h2⟩ := h
      subst a; subst st'
      obtain ⟨hWF', hdvd, hle, hfilter, -, -⟩ :=
        allocInBlock_sound b.1 size al hs hal b.2 off entries hbWF hblk
      refine ⟨?_, hdvd, rfl, by simp, ⟨by simp, hle⟩, ?_⟩
      · intro bb hbb
        rcases List.mem_cons.mp hbb with h' | h'
        · rw [h']; exact hWF'
        · exact hWF bb (List.mem_cons_of_mem b h')
      · show (b.1, entries.filter fun r => decide (r.start ≠ off)) :: rest = b :: rest
        rw [hfilter]
    | none =>
      cases hrec : allocBlocks size al rest with
      | none => simp [allocBlocks, hblk, hrec] at h
      | some q =>
        obtain ⟨a0, rest'⟩ := q
        simp only [allocBlocks, hblk, hrec, Option.some.injEq, Prod.mk.injEq] at h
        obtain ⟨h1, h2⟩ := h
        subst a; subst st'
        have hrestWF : poolWF rest := fun bb hbb => hWF bb (List.mem_cons_of_mem b hbb)
        obtain ⟨hWF', hdvd, hsz, hlen, ⟨hb0, hcap0⟩, hfree⟩ := ih a0 rest' hrestWF hrec
        refine ⟨?_, hdvd, hsz, by simp [hlen], ⟨by simpa using Nat.succ_lt_succ hb0, ?_⟩, ?_⟩
        · intro bb hbb
          rcases List.mem_cons.mp hbb with h' | h'
          · rw [h']; exact hbWF
          · exact hWF' bb h'
        · show a0.offset + size ≤ (rest'.get ⟨a0.blockIdx, hb0⟩).1
          exact hcap0
        · show b :: free rest' a0.blockIdx a0.offset = b :: rest
          rw [hfree]

/-! ### Well-formedness is preserved by every operation -/

theorem free_wf : ∀ (st : PoolState) (i off : Nat), poolWF st → poolWF (free st i off) := by
  intro st
  induction st with
  | nil => intro i off h; simpa [free] using h
  | cons b rest ih =>
    intro i off hWF
    have hbWF : blockWF b := hWF b (by simp)
    cases i with
    | zero =>
      intro bb hbb
      simp only [free] at hbb
      rcases List.mem_cons.mp hbb with h' | h'
      · rw [h']
        obtain ⟨h1, h2, h3⟩ := hbWF
        exact ⟨fun r hr => h1 r (List.mem_of_mem_filter hr), h2.filter _,
          fun r hr => h3 r (List.mem_of_mem_filter hr)⟩
      · exact hWF bb (List.mem_cons_of_mem b h')
    | succ n =>
      intro bb hbb
      simp only [free] at hbb
      rcases List.mem_cons.mp hbb with h' | h'
      · rw [h']; exact hbWF
      · exact ih n off (fun x hx => hWF x (List.mem_cons_of_mem b hx)) bb h'

theorem newBlock_wf (size : Nat) (hs : 0 < size) :
    blockWF (max MIN_BLOCK_SIZE (nextPowerOfTwo size), [⟨0, size⟩]) := by
  refine ⟨?_, by simp, ?_⟩
  · intro r hr; simp only [List.mem_singleton] at hr; rw [hr]; exact hs
  · intro r hr; simp only [List.mem_singleton] at hr; rw [hr]
    show size ≤ max MIN_BLOCK_SIZE (nextPowerOfTwo size)
    exact le_trans (le_nextPowerOfTwo size) (le_max_right _ _)

theorem alloc_wf (st : PoolState) (size al : Nat) (ok : Bool) (hWF : poolWF st) :
    poolWF (alloc st size al ok).2 := by
  unfold alloc
  by_cases h0 : size = 0 ∨ al = 0
  · simpa [h0] using hWF
  · have hs : 0 < size := by omega
    have hal : 0 < al := by omega
    simp only [h0, if_false]
    cases hblk : allocBlocks size al st with
    | some p =>
      obtain ⟨a, st'⟩ := p
      exact (allocBlocks_sound size al hs hal st a st' hWF hblk).1
    | none =>
      cases ok with
      | false => exact hWF
      | true =>
        simp only [Bool.true_eq_false, if_true]
        intro b hb
        rcases List.mem_append.mp hb with h' | h'
        · exact hWF b h'
        · simp only [List.mem_singleton] at h'; rw [h']
          exact newBlock_wf size hs

theorem step_wf (st : PoolState) (op : Op) (hWF : poolWF st) : poolWF (step st op) := by
  cases op with
  | alloc s a ok => exact alloc_wf st s a ok hWF
  | free i off => exact free_wf st i off hWF

theorem foldl_step_wf (ops : List Op) :
    ∀ st, poolWF st → poolWF (ops.foldl step st) := by
  induction ops with
  | nil => intro st h; exact h
  | cons op ops ih => intro st h; exact ih (step st op) (step_wf st op h)

theorem run_wf (ops : List Op) : poolWF (run ops) :=
  foldl_step_wf ops [] (fun b hb => absurd hb (List.not_mem_nil b))

/-- Claim C1: for every sequence of `alloc` and release (drop) operations on one
block allocator (`StandardHostVisibleMemoryTypePool` or
`StandardNonHostVisibleMemoryTypePool`) starting from the empty pool, the
occupied-range list of every block is at every point sorted in ascending order of
start offset and its half-open intervals are pairwise non-overlapping. -/
theorem c1_occupied_sorted_disjoint (ops : List Op) (hops : ∀ op ∈ ops, validOp op) :
    ∀ b ∈ run ops, sortedByStart b.2 ∧ disjointRanges b.2 := by
  intro b hb
  obtain ⟨h1, h2, h3⟩ := run_wf ops b hb
  constructor
  · exact List.Pairwise.imp_of_mem
      (fun hx hy hR => lt_of_lt_of_le (h1 _ hx) hR) h2
  · exact h2.imp (fun hR => Or.inl hR)

/-- Witness for C1 at a concrete operation sequence. -/
theorem c1_witness :
    (∀ op ∈ ([.alloc 5 4 true, .free 0 0, .alloc 3 1 true] : List Op), validOp op) ∧
    (∀ b ∈ run [.alloc 5 4 true, .free 0 0, .alloc 3 1 true],
      sortedByStart b.2 ∧ disjointRanges b.2) :=
  ⟨by decide, c1_occupied_sorted_disjoint _ (by decide)⟩


/-- Getting the last element of a list extended by one element. -/
theorem get_append_last {α : Type} (l : List α) (b : α) (h : l.length < (l ++ [b]).length) :
    (l ++ [b]).get ⟨l.length, h⟩ = b := by
  induction l with
  | nil => rfl
  | cons x xs ih => exact ih (by simp)

/-- Claim C2: for every `size > 0` and `alignment > 0`, a successful call to the
block allocator's `alloc(size, alignment)` returns an allocation whose offset `o`
satisfies `o % alignment == 0` and `o + size ≤` the `allocation_size` (capacity) of
the block it references. -/
theorem c2_alloc_offset_aligned_within_capacity (st : PoolState) (size al : Nat)
    (driverOk : Bool) (a : PoolAlloc) (st' : PoolState)
    (hWF : poolWF st) (hs : 0 < size) (hal : 0 < al)
    (h : alloc st size al driverOk = (.ok a, st')) :
    a.offset % al = 0 ∧
    ∃ hb : a.blockIdx < st'.length, a.offset + size ≤ (st'.get ⟨a.blockIdx, hb⟩).1 := by
  have h0 : ¬ (size = 0 ∨ al = 0) := by omega
  unfold alloc at h
  simp only [h0, if_false] at h
  cases hblk : allocBlocks size al st with
  | some p =>
    obtain ⟨a0, stA⟩ := p
    rw [hblk] at h
    simp only [Prod.mk.injEq, AllocResult.ok.injEq] at h
    obtain ⟨h1, h2⟩ := h
    subst a; subst st'
    obtain ⟨-, hdvd, -, -, hcapb, -⟩ := allocBlocks_sound size al hs hal st a0 stA hWF hblk
    exact ⟨Nat.dvd_iff_mod_eq_zero.mp hdvd, hcapb⟩
  | none =>
    rw [hblk] at h
    cases driverOk with
    | false => simp at h
    | true =>
      simp only [if_true, Prod.mk.injEq, AllocResult.ok.injEq] at h
      obtain ⟨h1, h2⟩ := h
      subst a; subst st'
      refine ⟨Nat.zero_mod al, ⟨by simp, ?_⟩⟩
      rw [get_append_last]
      show 0 + size ≤ max MIN_BLOCK_SIZE (nextPowerOfTwo size)
      have := le_trans (le_nextPowerOfTwo size) (le_max_right MIN_BLOCK_SIZE _)
      omega

/-- Witness for C2: allocating 1 byte with alignment 1 from the empty pool. -/
theorem c2_witness :
    (0 : Nat) % 1 = 0 ∧
    ∃ hb : 0 < ([(8388608, [⟨0, 1⟩])] : PoolState).length,
      0 + 1 ≤ (([(8388608, [⟨0, 1⟩])] : PoolState).get ⟨0, hb⟩).1 :=
  c2_alloc_offset_aligned_within_capacity [] 1 1 true ⟨0, 0, 1⟩ [(8388608, [⟨0, 1⟩])]
    (fun b hb => absurd hb (List.not_mem_nil b)) (by decide) (by decide) (by decide)

/-- Claim C7: if the external primitive fails to allocate (or map) a new block, the
block allocator's `alloc` returns the error and leaves the pool's state unchanged
(no partial block or occupied range is registered), and the in-pool gap search
itself never fails: when it finds a gap the call succeeds whatever the driver
would have answered. -/
theorem c7_driver_failure_leaves_state_unchanged (st : PoolState) (size al : Nat)
    (hs : 0 < size) (hal : 0 < al) :
    (∀ driverOk, (alloc st size al driverOk).1 = .err → (alloc st size al driverOk).2 = st) ∧
    (allocBlocks size al st = none → alloc st size al false = (.err, st)) ∧
    (∀ x, allocBlocks size al st = some x → ∀ driverOk,
      alloc st size al driverOk = (.ok x.1, x.2)) := by
  have h0 : ¬ (size = 0 ∨ al = 0) := by omega
  refine ⟨?_, ?_, ?_⟩
  · intro driverOk herr
    unfold alloc at herr ⊢
    simp only [h0, if_false] at herr ⊢
    cases hblk : allocBlocks size al st with
    | some p =>
      obtain ⟨a0, stA⟩ := p
      rw [hblk] at herr
      simp at herr
    | none =>
      rw [hblk] at herr
      cases driverOk with
      | false => rfl
      | true => simp at herr
  · intro hnone
    unfold alloc
    simp [h0, hnone]
  · intro x hx driverOk
    obtain ⟨a0, stA⟩ := x
    unfold alloc
    simp [h0, hx]

/-- Witness for C7 at the empty pool with `size = 1`, `alignment = 1`. -/
theorem c7_witness :
    (∀ driverOk, (alloc [] 1 1 driverOk).1 = .err → (alloc [] 1 1 driverOk).2 = []) ∧
    (allocBlocks 1 1 [] = none → alloc [] 1 1 false = (.err, [])) ∧
    (∀ x, allocBlocks 1 1 [] = some x → ∀ driverOk, alloc [] 1 1 driverOk = (.ok x.1, x.2)) :=
  c7_driver_failure_leaves_state_unchanged [] 1 1 (by decide) (by decide)

/-- Claim C9: calling the block allocator's `alloc` with `size = 0` or
`alignment = 0` faults (the `assert!` panics) rather than returning a recoverable
error or an allocation, and for every `size > 0` and `alignment > 0` the
precondition assertions never fire. -/
theorem c9_zero_size_or_alignment_panics (st : PoolState) (size al : Nat) (driverOk : Bool) :
    (alloc st 0 al driverOk).1 = .panicked ∧
    (alloc st size 0 driverOk).1 = .panicked ∧
    (0 < size → 0 < al → (alloc st size al driverOk).1 ≠ .panicked) := by
  refine ⟨by simp [alloc], by simp [alloc], ?_⟩
  intro hs hal
  have h0 : ¬ (size = 0 ∨ al = 0) := by omega
  unfold alloc
  simp only [h0, if_false]
  cases hblk : allocBlocks size al st with
  | some p => obtain ⟨a0, stA⟩ := p; simp
  | none => cases driverOk <;> simp

/-- Witness for C9: `alloc(0, 256)` and `alloc(4, 0)` panic on the empty pool,
`alloc(4, 256)` does not. -/
theorem c9_witness :
    (alloc [] 0 256 true).1 = .panicked ∧
    (alloc [] 4 0 true).1 = .panicked ∧
    (alloc [] 4 256 true).1 ≠ .panicked :=
  ⟨(c9_zero_size_or_alignment_panics [] 4 256 true).1,
   (c9_zero_size_or_alignment_panics [] 4 0 true).2.1,
   (c9_zero_size_or_alignment_panics [] 4 256 true).2.2 (by decide) (by decide)⟩

/-! ### Growth behaviour (claim C6) -/

theorem allocBlocks_append_none (size al : Nat) (b : Block) :
    ∀ st : PoolState, allocBlocks size al st = none →
      allocBlocks size al (st ++ [b]) =
        (allocInBlock b.1 size al b.2).map
          (fun p => (⟨st.length, p.1, size⟩, st ++ [(b.1, p.2)])) := by
  intro st
  induction st with
  | nil =>
    intro _
    cases hy : allocInBlock b.1 size al b.2 with
    | none => simp [allocBlocks, hy]
    | some p => simp [allocBlocks, hy]
  | cons x xs ih =>
    intro hnone
    cases hx : allocInBlock x.1 size al x.2 with
    | some p =>
      obtain ⟨off, entries⟩ := p
      simp [allocBlocks, hx] at hnone
    | none =>
      cases hxs : allocBlocks size al xs with
      | some q =>
        obtain ⟨a0, rest'⟩ := q
        simp [allocBlocks, hx, hxs] at hnone
      | none =>
        have hstep := ih hxs
        simp only [List.cons_append, allocBlocks, hx, List.append_eq]
        rw [hstep]
        cases hy : allocInBlock b.1 size al b.2 with
        | none => simp
        | some p => simp

theorem free_append_last (st : PoolState) (b : Block) (off : Nat) :
    free (st ++ [b]) st.length off =
      st ++ [(b.1, b.2.filter fun r => decide (r.start ≠ off))] := by
  induction st with
  | nil => rfl
  | cons x xs ih =>
    show x :: free (xs ++ [b]) xs.length off =
      x :: (xs ++ [(b.1, b.2.filter fun r => decide (r.start ≠ off))])
    rw [ih]

/-- Claim C6: the block allocator requests a new block from the driver only when no
gap in any existing block can satisfy `(size, alignment)`; freeing an allocation
and re-requesting the same `(size, alignment)` never grows the pool (the re-request
succeeds without any driver call); and when the pool does grow, the new block has
capacity `max(8 MiB, next_power_of_two(size))`, is registered with the single
initial occupied range `[0, size)`, and the returned allocation has offset 0 in
the new (last) block. -/
theorem c6_growth_policy (st : PoolState) (size al : Nat)
    (hWF : poolWF st) (hs : 0 < size) (hal : 0 < al) :
    (∀ x, allocBlocks size al st = some x → ∀ driverOk,
        (alloc st size al driverOk).2.length = st.length) ∧
    (allocBlocks size al st = none →
        alloc st size al true =
          (.ok ⟨st.length, 0, size⟩,
            st ++ [(max MIN_BLOCK_SIZE (nextPowerOfTwo size), [⟨0, size⟩])])) ∧
    (∀ a st', alloc st size al true = (.ok a, st') →
        ∃ b2 st2, alloc (free st' a.blockIdx a.offset) size al false = (.ok b2, st2)) := by
  have h0 : ¬ (size = 0 ∨ al = 0) := by omega
  refine ⟨?_, ?_, ?_⟩
  · intro x hx driverOk
    obtain ⟨a0, stA⟩ := x
    unfold alloc
    simp only [h0, if_false]
    rw [hx]
    show stA.length = st.length
    exact (allocBlocks_sound size al hs hal st a0 stA hWF hx).2.2.2.1
  · intro hnone
    unfold alloc
    simp [h0, hnone]
  · intro a st' h
    unfold alloc at h
    simp only [h0, if_false] at h
    cases hblk : allocBlocks size al st with
    | some p =>
      obtain ⟨a0, stA⟩ := p
      rw [hblk] at h
      simp only [Prod.mk.injEq, AllocResult.ok.injEq] at h
      obtain ⟨h1, h2⟩ := h
      subst a; subst st'
      have hfree : free stA a0.blockIdx a0.offset = st :=
        (allocBlocks_sound size al hs hal st a0 stA hWF hblk).2.2.2.2.2
      rw [hfree]
      refine ⟨a0, stA, ?_⟩
      unfold alloc
      simp [h0, hblk]
    | none =>
      rw [hblk] at h
      simp only [if_true, Prod.mk.injEq, AllocResult.ok.injEq] at h
      obtain ⟨h1, h2⟩ := h
      subst a; subst st'
      rw [free_append_last]
      have hfe : List.filter (fun r => decide (r.start ≠ 0)) [(⟨0, size⟩ : MemRange)] = [] := by
        simp
      rw [hfe]
      have hcap : size ≤ max MIN_BLOCK_SIZE (nextPowerOfTwo size) :=
        le_trans (le_nextPowerOfTwo size) (le_max_right MIN_BLOCK_SIZE _)
      refine ⟨⟨st.length, 0, size⟩,
        st ++ [(max MIN_BLOCK_SIZE (nextPowerOfTwo size), [⟨0, size⟩])], ?_⟩
      unfold alloc
      simp only [h0, if_false]
      rw [allocBlocks_append_none size al _ st hblk]
      simp [allocInBlock, hcap]

/-- Witness for C6 at the empty pool with `size = 1`, `alignment = 1`. -/
theorem c6_witness :
    (∀ x, allocBlocks 1 1 [] = some x → ∀ driverOk,
        (alloc [] 1 1 driverOk).2.length = ([] : PoolState).length) ∧
    (allocBlocks 1 1 [] = none →
        alloc [] 1 1 true =
          (.ok ⟨0, 0, 1⟩, [(max MIN_BLOCK_SIZE (nextPowerOfTwo 1), [⟨0, 1⟩])])) ∧
    (∀ a st', alloc [] 1 1 true = (.ok a, st') →
        ∃ b2 st2, alloc (free st' a.blockIdx a.offset) 1 1 false = (.ok b2, st2)) :=
  c6_growth_policy [] 1 1 (fun b hb => absurd hb (List.not_mem_nil b)) (by decide) (by decide)


/-! ### The `align` helper (claim C3) -/

/-- Counterexample to claim C3 as stated: `align(8, 4) = 8`, so for `v = 8` a
positive multiple of `a = 4` the helper returns `v` unchanged, refuting "never
returns `v` unchanged". -/
theorem c3_counterexample :
    align 8 4 = 8 ∧ 0 < (8 : Nat) ∧ 0 < (4 : Nat) ∧ (4 : Nat) ∣ 8 := by decide

/-- Claim C3 (amended): for every `v > 0` and `a > 0`, `align_up(v, a) =
a * (1 + (v - 1) / a)` is the least multiple of `a` that is `≥ v`; in particular,
when `v` is a positive multiple of `a` it returns `v` unchanged (a standard
round-up-to-multiple, not an always-advance). -/
theorem c3_amended_align_least_multiple (v a : Nat) (hv : 0 < v) (ha : 0 < a) :
    a ∣ align v a ∧ v ≤ align v a ∧ align v a < v + a ∧ (a ∣ v → align v a = v) := by
  refine ⟨align_dvd v a, le_align v a ha, ?_, align_eq_of_dvd v a hv ha⟩
  have := align_le v a hv ha
  omega

/-- Witness for the amended C3 at `v = 8`, `a = 4`. -/
theorem c3_amended_witness :
    (4 : Nat) ∣ align 8 4 ∧ 8 ≤ align 8 4 ∧ align 8 4 < 8 + 4 ∧
      ((4 : Nat) ∣ 8 → align 8 4 = 8) :=
  c3_amended_align_least_multiple 8 4 (by decide) (by decide)

/-! ### The pooled-versus-dedicated decision (claim C4) -/

/-- `MAX_POOL_ALLOC` from `mod.rs` line 38: 256 MiB. -/
def MAX_POOL_ALLOC : Nat := 256 * 1024 * 1024

/-- `DedicatedAllocation`: the resource (buffer or image) a dedicated allocation
is tied to; only its presence matters to the decision. -/
inductive DedicatedAllocation where
  | buffer (id : Nat)
  | image (id : Nat)
deriving DecidableEq

/-- The fields of `MemoryRequirements` read by `alloc_from_requirements`. -/
structure MemoryRequirements where
  size : Nat
  alignment : Nat
  memory_type_bits : Nat
  prefer_dedicated : Bool
deriving DecidableEq

/-- What `alloc_from_requirements` does after memory-type selection: delegate to
the pool (`alloc_generic` with the request's size and alignment) or perform a
dedicated `DeviceMemory::allocate` of the given `allocation_size`. -/
inductive AllocDecision where
  | pooled (size alignment : Nat)
  | dedicated (allocation_size : Nat)
deriving DecidableEq

/-- The decision logic of `MemoryPool::alloc_from_requirements` (`mod.rs` lines
248-279): two early pooled returns, then a dedicated allocation sized exactly
`requirements.size`. -/
def alloc_from_requirements (requirements : MemoryRequirements)
    (dedicated_allocation : Option DedicatedAllocation) : AllocDecision :=
  if !requirements.prefer_dedicated && decide (requirements.size ≤ MAX_POOL_ALLOC) then
    .pooled requirements.size requirements.alignment
  else if dedicated_allocation.isNone then
    .pooled requirements.size requirements.alignment
  else
    .dedicated requirements.size

/-- Claim C4: `alloc_from_requirements` takes the dedicated path (allocating a
whole memory object of exactly `requirements.size`, bypassing the pool) if and
only if (`requirements.size > 256 MiB` or `requirements.prefer_dedicated`) and a
dedicated-allocation target was supplied; otherwise it delegates to the pooled
`alloc_generic` path.  In particular 300 MiB with a target is always dedicated and
4 KiB without dedication preference is always pooled. -/
theorem c4_dedicated_path_iff (requirements : MemoryRequirements)
    (dedicated_allocation : Option DedicatedAllocation) :
    (alloc_from_requirements requirements dedicated_allocation =
        .dedicated requirements.size ↔
      (MAX_POOL_ALLOC < requirements.size ∨ requirements.prefer_dedicated = true) ∧
        dedicated_allocation.isSome = true) ∧
    (requirements.size = 300 * 1024 * 1024 → dedicated_allocation.isSome = true →
      alloc_from_requirements requirements dedicated_allocation =
        .dedicated requirements.size) ∧
    (requirements.size = 4 * 1024 → requirements.prefer_dedicated = false →
      alloc_from_requirements requirements dedicated_allocation =
        .pooled requirements.size requirements.alignment) := by
  unfold alloc_from_requirements
  cases hd : dedicated_allocation <;>
    cases hp : requirements.prefer_dedicated <;>
    by_cases hsz : requirements.size ≤ MAX_POOL_ALLOC <;>
    simp_all [MAX_POOL_ALLOC]

/-- Witness for C4: the two concrete scenarios from the claim. -/
theorem c4_witness :
    (alloc_from_requirements ⟨300 * 1024 * 1024, 256, 1, false⟩ (some (.buffer 0)) =
      .dedicated (300 * 1024 * 1024)) ∧
    (alloc_from_requirements ⟨4 * 1024, 256, 1, false⟩ none = .pooled (4 * 1024) 256) :=
  ⟨(c4_dedicated_path_iff ⟨300 * 1024 * 1024, 256, 1, false⟩ (some (.buffer 0))).2.1 rfl rfl,
   (c4_dedicated_path_iff ⟨4 * 1024, 256, 1, false⟩ none).2.2 rfl rfl⟩


/-! ### Memory-type selection (claim C5) -/

/-- `AllocFromRequirementsFilter` (`mod.rs` lines 291-296). -/
inductive AllocFromRequirementsFilter where
  | Preferred
  | Allowed
  | Forbidden
deriving DecidableEq

/-- `MappingRequirement` (`mod.rs` lines 313-319). -/
inductive MappingRequirement where
  | Map
  | DoNotMap
deriving DecidableEq

/-- The fields of a `MemoryType` read by `choose_allocation_memory_type`: its
driver index `id` and its `host_visible` property flag. -/
structure MemoryType where
  id : Nat
  host_visible : Bool
deriving DecidableEq

/-- The shadowing closure inside `choose_allocation_memory_type` (`mod.rs` lines
50-55): with a `Map` requirement, a non-host-visible type is `Forbidden` whatever
the caller's `filter` says. -/
def effective_filter (map : MappingRequirement)
    (filter : MemoryType → AllocFromRequirementsFilter) (ty : MemoryType) :
    AllocFromRequirementsFilter :=
  if map = .Map ∧ ty.host_visible = false then .Forbidden else filter ty

/-- `choose_allocation_memory_type` (`mod.rs` lines 40-73): chain the memory types
tagged `Preferred` with the same types tagged `Allowed` (both in driver order),
keep the eligible ones (bit set in `memory_type_bits`), keep those whose
classification matches the tag, and take the first.  `none` models the
`.expect("Couldn't find a memory type to allocate from")` panic. -/
def choose_allocation_memory_type (memory_types : List MemoryType)
    (memory_type_bits : Nat) (filter : MemoryType → AllocFromRequirementsFilter)
    (map : MappingRequirement) : Option MemoryType :=
  ((((memory_types.map fun t => (t, AllocFromRequirementsFilter.Preferred)) ++
      (memory_types.map fun t => (t, AllocFromRequirementsFilter.Allowed))).filter
        fun p => decide (memory_type_bits &&& (1 <<< p.1.id) ≠ 0)).filter
        fun p => decide (effective_filter map filter p.1 = p.2)).head?.map Prod.fst

/-- C5 reference model, following the spec's words: the first (earliest in driver
order) eligible type classified `Preferred`; only if there is none, the first
eligible type classified `Allowed`. -/
def chooseSpec (memory_types : List MemoryType) (memory_type_bits : Nat)
    (filter : MemoryType → AllocFromRequirementsFilter) (map : MappingRequirement) :
    Option MemoryType :=
  ((memory_types.filter fun t =>
      decide (memory_type_bits &&& (1 <<< t.id) ≠ 0) &&
      decide (effective_filter map filter t = .Preferred)).head?).or
  ((memory_types.filter fun t =>
      decide (memory_type_bits &&& (1 <<< t.id) ≠ 0) &&
      decide (effective_filter map filter t = .Allowed)).head?)

theorem filter_tagged (memory_types : List MemoryType) (bits : Nat)
    (eff : MemoryType → AllocFromRequirementsFilter) (rq : AllocFromRequirementsFilter) :
    (((memory_types.map fun t => (t, rq)).filter
        fun p => decide (bits &&& (1 <<< p.1.id) ≠ 0)).filter
        fun p => decide (eff p.1 = p.2)) =
      (memory_types.filter fun t =>
        decide (bits &&& (1 <<< t.id) ≠ 0) && decide (eff t = rq)).map
          fun t => (t, rq) := by
  induction memory_types with
  | nil => rfl
  | cons t ts ih =>
    simp only [List.map_cons]
    by_cases h1 : bits &&& (1 <<< t.id) ≠ 0
    · rw [List.filter_cons_of_pos (by simpa using h1)]
      by_cases h2 : eff t = rq
      · rw [List.filter_cons_of_pos (by simpa using h2),
          List.filter_cons_of_pos (by simp [h1, h2]), List.map_cons, ih]
      · rw [List.filter_cons_of_neg (by simpa using h2),
          List.filter_cons_of_neg (by simp [h1, h2]), ih]
    · rw [List.filter_cons_of_neg (by simpa using h1),
        List.filter_cons_of_neg (by simp [h1]), ih]

/-- Claim C5: memory-type selection returns the eligible type (bit set in
`requirements.memory_type_bits`) earliest in driver order that the filter
classifies `Preferred`; if no eligible type is `Preferred`, the earliest eligible
type classified `Allowed`; and when mapping is required, any type lacking the
host-visible flag is treated as `Forbidden` regardless of the filter's answer. -/
theorem c5_choose_memory_type (memory_types : List MemoryType) (memory_type_bits : Nat)
    (filter : MemoryType → AllocFromRequirementsFilter) (map : MappingRequirement) :
    (choose_allocation_memory_type memory_types memory_type_bits filter map =
      chooseSpec memory_types memory_type_bits filter map) ∧
    (∀ ty, map = .Map → ty.host_visible = false →
      effective_filter map filter ty = .Forbidden) := by
  constructor
  · unfold choose_allocation_memory_type chooseSpec
    rw [List.filter_append, List.filter_append, filter_tagged, filter_tagged,
      List.head?_append, List.head?_map, List.head?_map]
    cases hP : (memory_types.filter fun t =>
        decide (memory_type_bits &&& (1 <<< t.id) ≠ 0) &&
        decide (effective_filter map filter t = .Preferred)).head? with
    | some tP => simp
    | none =>
      cases hA : (memory_types.filter fun t =>
          decide (memory_type_bits &&& (1 <<< t.id) ≠ 0) &&
          decide (effective_filter map filter t = .Allowed)).head? with
      | some tA => simp
      | none => simp
  · intro ty hmap hhv
    unfold effective_filter
    simp [hmap, hhv]

/-- Witness for C5 at a concrete memory-type table, mask `0b101` and a filter
preferring type 2. -/
theorem c5_witness :
    (choose_allocation_memory_type [⟨0, true⟩, ⟨1, true⟩, ⟨2, true⟩] 5
        (fun t => if t.id = 2 then .Preferred else .Allowed) .DoNotMap =
      chooseSpec [⟨0, true⟩, ⟨1, true⟩, ⟨2, true⟩] 5
        (fun t => if t.id = 2 then .Preferred else .Allowed) .DoNotMap) ∧
    (∀ ty, MappingRequirement.DoNotMap = .Map → ty.host_visible = false →
      effective_filter .DoNotMap (fun t => if t.id = 2 then .Preferred else .Allowed) ty =
        .Forbidden) :=
  c5_choose_memory_type [⟨0, true⟩, ⟨1, true⟩, ⟨2, true⟩] 5
    (fun t => if t.id = 2 then .Preferred else .Allowed) .DoNotMap

/-! ### Export / import capability assertions (claim C8) -/

/-- The device-extension flags read by the export/import entry points. -/
structure DeviceExtensions where
  khr_external_memory_fd : Bool
  khr_external_memory : Bool
  ext_external_memory_dma_buf : Bool
deriving DecidableEq

/-- Outcome of an export/import entry point: an `assert!`/`expect` failure, a
driver error propagated by `?`, or the returned dedicated allocation. -/
inductive ExtAllocOutcome where
  | panicked
  | err
  | okDedicated
  | okDedicatedMapped
deriving DecidableEq

/-- `alloc_dedicated_with_exportable_fd` (`mod.rs` lines 77-112) modelled on its
observable control flow: two `assert!`s on the enabled extensions first, then the
driver allocation (`DeviceMemory::allocate`) and, under `MappingRequirement::Map`,
the mapping; `allocOk` / `mapOk` model the driver answers.  Memory-type selection
happens between the assertions and the driver call and is modelled separately by
`choose_allocation_memory_type`.  The second component records whether any driver
call was attempted. -/
def alloc_dedicated_with_exportable_fd (ext : DeviceExtensions)
    (map : MappingRequirement) (allocOk mapOk : Bool) : ExtAllocOutcome × Bool :=
  if !ext.khr_external_memory_fd then (.panicked, false)
  else if !ext.khr_external_memory then (.panicked, false)
  else if !allocOk then (.err, true)
  else
    match map with
    | .Map => if !mapOk then (.err, true) else (.okDedicatedMapped, true)
    | .DoNotMap => (.okDedicated, true)

/-- `alloc_import_from_fd` (`mod.rs` lines 115-168): three `assert!`s on the
enabled extensions, the `.expect` on the first file descriptor of `fd`, then the
driver import and optional mapping. -/
def alloc_import_from_fd (ext : DeviceExtensions) (map : MappingRequirement)
    (fds : List Nat) (importOk mapOk : Bool) : ExtAllocOutcome × Bool :=
  if !ext.khr_external_memory_fd then (.panicked, false)
  else if !ext.khr_external_memory then (.panicked, false)
  else if !ext.ext_external_memory_dma_buf then (.panicked, false)
  else
    match fds.head? with
    | none => (.panicked, false)
    | some _ =>
      if !importOk then (.err, true)
      else
        match map with
        | .Map => if !mapOk then (.err, true) else (.okDedicatedMapped, true)
        | .DoNotMap => (.okDedicated, true)

/-- Counterexample to claim C8 as stated: with `khr_external_memory_fd` disabled,
the export entry point panics on its `assert!` — the outcome is not a recoverable
error variant reported to the caller. -/
theorem c8_counterexample :
    (alloc_dedicated_with_exportable_fd ⟨false, true, true⟩ .DoNotMap true true).1 =
      .panicked ∧
    ExtAllocOutcome.panicked ≠ .err := by decide

/-- Claim C8 (amended): calling the export entry point
(`alloc_dedicated_with_exportable_fd`) or the import entry point
(`alloc_import_from_fd`) without the required external-memory capability flags
enabled faults (assertion failure) before any driver call is attempted; the
violation is not reported as a recoverable error variant. -/
theorem c8_amended_capability_assertions (ext : DeviceExtensions)
    (map : MappingRequirement) (allocOk mapOk importOk : Bool) (fds : List Nat) :
    ((ext.khr_external_memory_fd = false ∨ ext.khr_external_memory = false) →
      alloc_dedicated_with_exportable_fd ext map allocOk mapOk = (.panicked, false)) ∧
    ((ext.khr_external_memory_fd = false ∨ ext.khr_external_memory = false ∨
        ext.ext_external_memory_dma_buf = false) →
      alloc_import_from_fd ext map fds importOk mapOk = (.panicked, false)) := by
  obtain ⟨e1, e2, e3⟩ := ext
  constructor <;> intro h <;> cases e1 <;> cases e2 <;> cases e3 <;>
    simp_all [alloc_dedicated_with_exportable_fd, alloc_import_from_fd]

/-- Witness for the amended C8 with one missing flag for each entry point. -/
theorem c8_amended_witness :
    (alloc_dedicated_with_exportable_fd ⟨true, false, true⟩ .Map true true =
      (.panicked, false)) ∧
    (alloc_import_from_fd ⟨true, true, false⟩ .Map [3] true true = (.panicked, false)) :=
  ⟨(c8_amended_capability_assertions ⟨true, false, true⟩ .Map true true true [3]).1
      (Or.inr rfl),
   (c8_amended_capability_assertions ⟨true, true, false⟩ .Map true true true [3]).2
      (Or.inr (Or.inr rfl))⟩

/-! ### The `PotentialDedicatedAllocation` queries (claim C10) -/

/-- The external `DeviceMemory` object, as far as these queries observe it. -/
structure DeviceMemory where
  allocation_size : Nat
deriving DecidableEq

/-- A `DeviceMemory` together with a host mapping of its full range. -/
structure MappedDeviceMemory where
  memory : DeviceMemory
deriving DecidableEq

/-- `PotentialDedicatedAllocation` (`mod.rs` lines 333-337). -/
inductive PotentialDedicatedAllocation (A : Type) where
  | Generic (alloc : A)
  | Dedicated (memory : DeviceMemory)
  | DedicatedMapped (memory : MappedDeviceMemory)

/-- `MemoryPoolAlloc::offset` for `PotentialDedicatedAllocation` (`mod.rs` lines
361-368); the `Generic` variant delegates to the pooled allocation's own `offset`
(the trait method, passed in as a function). -/
def PotentialDedicatedAllocation.offset {A : Type} (genericOffset : A → Nat) :
    PotentialDedicatedAllocation A → Nat
  | .Generic a => genericOffset a
  | .Dedicated _ => 0
  | .DedicatedMapped _ => 0

/-- `MemoryPoolAlloc::mapped_memory` for `PotentialDedicatedAllocation` (`mod.rs`
lines 343-350). -/
def PotentialDedicatedAllocation.mapped_memory {A : Type}
    (genericMapped : A → Option MappedDeviceMemory) :
    PotentialDedicatedAllocation A → Option MappedDeviceMemory
  | .Generic a => genericMapped a
  | .Dedicated _ => none
  | .DedicatedMapped mem => some mem

/-- Claim C10: on the dedicated variants, `offset()` returns 0 and
`mapped_memory()` returns `None` exactly on `Dedicated` and `Some` on
`DedicatedMapped`; only the `Generic` variant delegates both queries to the
pooled allocation. -/
theorem c10_potential_dedicated_queries (A : Type) (genericOffset : A → Nat)
    (genericMapped : A → Option MappedDeviceMemory) (a : A)
    (m : DeviceMemory) (mm : MappedDeviceMemory) :
    PotentialDedicatedAllocation.offset genericOffset
        (.Dedicated m : PotentialDedicatedAllocation A) = 0 ∧
    PotentialDedicatedAllocation.offset genericOffset
        (.DedicatedMapped mm : PotentialDedicatedAllocation A) = 0 ∧
    PotentialDedicatedAllocation.mapped_memory genericMapped
        (.Dedicated m : PotentialDedicatedAllocation A) = none ∧
    PotentialDedicatedAllocation.mapped_memory genericMapped
        (.DedicatedMapped mm : PotentialDedicatedAllocation A) = some mm ∧
    PotentialDedicatedAllocation.offset genericOffset (.Generic a) = genericOffset a ∧
    PotentialDedicatedAllocation.mapped_memory genericMapped (.Generic a) = genericMapped a :=
  ⟨rfl, rfl, rfl, rfl, rfl, rfl⟩

end Vulkano
